import Mathlib

/-!
Verification of the MCP-RAG ingestion-and-retrieval pipeline
(`scripts/rag_processor.py`, `scripts/mcp_rag_server.py`, `scripts/check_db.py`)
against its natural-language specification.

The Python sources are shallowly embedded below: pure functions become Lean
functions, the Postgres connection state (autocommit off, explicit commit)
becomes an explicit state type, network calls become function arguments of
type `String → Except String _`, and the `while` loop of `auto_chunk` is
modelled with explicit fuel so that non-termination is observable as `none`.
-/

namespace MCPRAG

/-- Metadata stored in the `vmetadata` JSONB column: `process_file` writes
a json object with key `source` set to the file's basename and key `product`
set to the first folder of the file's relative path
(rag_processor.py lines 187-199). -/
structure Meta where
  source : String
  product : String
deriving DecidableEq

/-- One row of the `document_chunk` table created by `initialize_schema`
(rag_processor.py lines 59-67): `id TEXT PRIMARY KEY`, `vector vector(768)`,
`collection_name TEXT NOT NULL`, `text TEXT`, `vmetadata JSONB`.
Vectors are modelled as rational lists. -/
structure Row where
  id : String
  vector : List ℚ
  collection_name : String
  text : String
  vmetadata : Meta
deriving DecidableEq

/-- State of the single Postgres connection of `DatabaseManager.__init__`
(rag_processor.py lines 33-36, `autocommit = False`): the rows already
committed to `document_chunk`, and the inserts buffered in the currently
open transaction. -/
structure PgState where
  committed : List Row
  txn : List Row

/-- Rows visible to statements running inside the current transaction. -/
def visible (s : PgState) : List Row := s.committed ++ s.txn

/-- Whether some row with the given primary key is present. -/
def hasId (rows : List Row) (i : String) : Bool := rows.any (fun r => r.id == i)

/-- One `INSERT INTO document_chunk ... ON CONFLICT (id) DO NOTHING` statement
executed inside the open transaction (rag_processor.py lines 99-104): if the
`id` is already visible the statement is a no-op, otherwise the row is added
to the transaction buffer. -/
def execStmt (s : PgState) (r : Row) : PgState :=
  if hasId (visible s) r.id then s else { s with txn := s.txn ++ [r] }

/-- The `COMMIT` issued by `self.conn.commit()`: the whole transaction buffer
becomes durable at once. -/
def commitTxn (s : PgState) : PgState := ⟨s.committed ++ s.txn, []⟩

/-- Loss of the connection before `COMMIT`: the transaction buffer is discarded. -/
def rollbackTxn (s : PgState) : PgState := ⟨s.committed, []⟩

/-- The method `DatabaseManager.insert_chunks` (rag_processor.py lines 98-105): execute the
batch of `INSERT ... ON CONFLICT (id) DO NOTHING` statements in one
transaction, then commit once. Returns the committed table contents. -/
def insert_chunks (st : List Row) (rows : List Row) : List Row :=
  (commitTxn (rows.foldl execStmt ⟨st, []⟩)).committed

/-- A run of `insert_chunks` that crashes after executing `k` of the batch's
statements, before the single `COMMIT` of line 105 is reached: the
transaction rolls back. Returns the committed table contents seen afterwards. -/
def insert_chunks_crash (st : List Row) (rows : List Row) (k : Nat) : List Row :=
  (rollbackTxn ((rows.take k).foldl execStmt ⟨st, []⟩)).committed

/- Basic facts about the transaction machine. -/

theorem execStmt_committed (s : PgState) (r : Row) :
    (execStmt s r).committed = s.committed := by
  unfold execStmt
  split_ifs <;> rfl

theorem committed_foldl (rows : List Row) (s : PgState) :
    (rows.foldl execStmt s).committed = s.committed := by
  induction rows generalizing s with
  | nil => rfl
  | cons r rows ih =>
    simp only [List.foldl_cons]
    rw [ih, execStmt_committed]

theorem insert_chunks_eq_visible (st rows : List Row) :
    insert_chunks st rows = visible (rows.foldl execStmt ⟨st, []⟩) := rfl

theorem insert_chunks_append (st rows : List Row) :
    insert_chunks st rows = st ++ (rows.foldl execStmt ⟨st, []⟩).txn := by
  rw [insert_chunks_eq_visible]
  unfold visible
  rw [committed_foldl]

theorem hasId_visible_execStmt {s : PgState} {i : String} (r : Row)
    (h : hasId (visible s) i = true) : hasId (visible (execStmt s r)) i = true := by
  unfold execStmt
  split_ifs with hc
  · exact h
  · simp only [visible, hasId, List.any_append, Bool.or_eq_true] at h ⊢
    tauto

theorem hasId_visible_foldl {i : String} (rows : List Row) :
    ∀ s : PgState, hasId (visible s) i = true →
      hasId (visible (rows.foldl execStmt s)) i = true := by
  induction rows with
  | nil => exact fun s h => h
  | cons r rows ih => exact fun s h => ih _ (hasId_visible_execStmt r h)

theorem hasId_visible_after (s : PgState) (r : Row) :
    hasId (visible (execStmt s r)) r.id = true := by
  unfold execStmt
  split_ifs with hc
  · exact hc
  · simp [visible, hasId, List.any_append]

theorem hasId_visible_foldl_mem (rows : List Row) :
    ∀ (s : PgState) (r : Row), r ∈ rows →
      hasId (visible (rows.foldl execStmt s)) r.id = true := by
  induction rows with
  | nil => intro s r hr; cases hr
  | cons a rows ih =>
    intro s r hr
    rcases List.mem_cons.mp hr with rfl | hr
    · exact hasId_visible_foldl rows _ (hasId_visible_after s r)
    · exact ih _ r hr

theorem mem_batch_hasId (st rows : List Row) :
    ∀ r ∈ rows, hasId (insert_chunks st rows) r.id = true := by
  intro r hr
  rw [insert_chunks_eq_visible]
  exact hasId_visible_foldl_mem rows _ r hr

theorem foldl_execStmt_all_present (rows : List Row) :
    ∀ s : PgState, (∀ r ∈ rows, hasId (visible s) r.id = true) →
      rows.foldl execStmt s = s := by
  induction rows with
  | nil => intro s _; rfl
  | cons a rows ih =>
    intro s h
    have ha : execStmt s a = s := by
      unfold execStmt
      rw [if_pos (h a (List.mem_cons_self a rows))]
    simp only [List.foldl_cons, ha]
    exact ih s (fun r hr => h r (List.mem_cons_of_mem a hr))

theorem find?_isSome_of_hasId {st : List Row} {i : String}
    (h : hasId st i = true) : (st.find? (fun r => r.id == i)).isSome = true := by
  induction st with
  | nil => cases h
  | cons a st ih =>
    simp only [hasId, List.any_cons, Bool.or_eq_true] at h
    by_cases ha : (a.id == i) = true
    · simp [List.find?, ha]
    · simp only [List.find?, ha]
      exact ih (by simpa [hasId, ha] using h)

theorem find?_append_of_isSome {α} (p : α → Bool) (l₁ l₂ : List α)
    (h : (l₁.find? p).isSome = true) : (l₁ ++ l₂).find? p = l₁.find? p := by
  induction l₁ with
  | nil => cases h
  | cons a l ih =>
    by_cases ha : p a = true
    · simp [List.find?, ha]
    · simp only [List.cons_append, List.find?, ha] at h ⊢
      exact ih h

/-- Sample rows sharing the primary key `"k1"` but with different payloads. -/
def rowA : Row := ⟨"k1", [1], "docs@v1", "alpha beta", ⟨"a.txt", "p"⟩⟩

/-- Second sample row with the same `id` as `rowA` and a different text. -/
def rowB : Row := ⟨"k1", [2], "docs@v1", "other text", ⟨"b.txt", "p"⟩⟩

/-- C1: `insert_chunks` is idempotent with respect to ids. Every row whose `id`
already exists in the store is silently skipped: the row previously stored
under that `id` is returned unchanged by lookup (first-write-wins, no update
and no error), and re-inserting the same batch a second time leaves the
table — and hence its row count — exactly as after the first insertion. -/
theorem insert_chunks_idempotent (st rows : List Row) :
    (∀ i, hasId st i = true →
      (insert_chunks st rows).find? (fun r => r.id == i) = st.find? (fun r => r.id == i))
    ∧ insert_chunks (insert_chunks st rows) rows = insert_chunks st rows
    ∧ (insert_chunks (insert_chunks st rows) rows).length = (insert_chunks st rows).length := by
  have hidem : insert_chunks (insert_chunks st rows) rows = insert_chunks st rows := by
    have hall : ∀ r ∈ rows, hasId (visible ⟨insert_chunks st rows, []⟩) r.id = true := by
      intro r hr
      have := mem_batch_hasId st rows r hr
      simpa [visible] using this
    calc insert_chunks (insert_chunks st rows) rows
        = visible (rows.foldl execStmt ⟨insert_chunks st rows, []⟩) :=
          insert_chunks_eq_visible _ rows
      _ = visible ⟨insert_chunks st rows, []⟩ := by
          rw [foldl_execStmt_all_present rows _ hall]
      _ = insert_chunks st rows := by simp [visible]
  refine ⟨?_, hidem, congrArg List.length hidem⟩
  intro i hi
  rw [insert_chunks_append]
  exact find?_append_of_isSome _ st _ (find?_isSome_of_hasId hi)

/-- Witness for C1 at a concrete store and batch: `rowB` collides with the
stored `rowA` on id `"k1"`, the stored row wins, and re-insertion is a no-op. -/
theorem insert_chunks_idempotent_witness :
    (insert_chunks [rowA] [rowB]).find? (fun r => r.id == "k1")
        = [rowA].find? (fun r => r.id == "k1")
    ∧ insert_chunks (insert_chunks [rowA] [rowB]) [rowB] = insert_chunks [rowA] [rowB] :=
  ⟨(insert_chunks_idempotent [rowA] [rowB]).1 "k1" (by decide),
   (insert_chunks_idempotent [rowA] [rowB]).2.1⟩

/-- C9: `insert_chunks` is atomic per batch. A crash after any number `k` of
the batch's statements, before the single `COMMIT` of rag_processor.py line
105, leaves the committed table exactly as it was (no partial batch is ever
visible); a completed run makes every row id of the batch visible. -/
theorem insert_chunks_atomic (st rows : List Row) (k : Nat) :
    insert_chunks_crash st rows k = st
    ∧ ∀ r ∈ rows, hasId (insert_chunks st rows) r.id = true := by
  constructor
  · unfold insert_chunks_crash rollbackTxn
    exact committed_foldl _ _
  · exact mem_batch_hasId st rows

/-- Witness for C9 at a concrete store and batch: crashing after the first
statement leaves the store at `[rowA]`, while the completed run makes
`rowB.id` visible. -/
theorem insert_chunks_atomic_witness :
    insert_chunks_crash [rowA] [rowB] 1 = [rowA]
    ∧ hasId (insert_chunks [rowA] [rowB]) rowB.id = true :=
  ⟨(insert_chunks_atomic [rowA] [rowB] 1).1,
   (insert_chunks_atomic [rowA] [rowB] 1).2 rowB (List.mem_singleton.mpr rfl)⟩

/-! Chunker (`auto_chunk`, rag_processor.py lines 124-142) -/

/-- Helper for Python `str.split()`: walk the character list, accumulating the
current word in reverse in `acc`; runs of whitespace end a word, and empty
words are never emitted. -/
def splitAcc : List Char → List Char → List String
  | [], [] => []
  | [], a :: acc => [String.mk ((a :: acc).reverse)]
  | c :: cs, acc =>
    if c.isWhitespace then
      match acc with
      | [] => splitAcc cs []
      | a :: acc => String.mk ((a :: acc).reverse) :: splitAcc cs []
    else
      splitAcc cs (c :: acc)

/-- Python `text.split()` with no separator (rag_processor.py line 125):
split on runs of whitespace, dropping empty tokens. -/
def pySplit (text : String) : List String := splitAcc text.data []

theorem splitAcc_cons_nil (c : Char) (cs : List Char) :
    splitAcc (c :: cs) [] =
      if c.isWhitespace then splitAcc cs [] else splitAcc cs [c] := rfl

theorem splitAcc_cons_cons (c : Char) (cs : List Char) (a : Char) (acc : List Char) :
    splitAcc (c :: cs) (a :: acc) =
      if c.isWhitespace then
        String.mk ((a :: acc).reverse) :: splitAcc cs []
      else
        splitAcc cs (c :: a :: acc) := rfl

theorem mem_splitAcc_ne_empty :
    ∀ (l acc : List Char) (w : String), w ∈ splitAcc l acc → w ≠ "" := by
  intro l
  induction l with
  | nil =>
    intro acc w hw
    match acc, hw with
    | a :: acc, hw =>
      have hmem : w = String.mk ((a :: acc).reverse) := List.mem_singleton.mp hw
      subst hmem
      intro hcontra
      have hdata : ((a :: acc).reverse : List Char) = [] := congrArg String.data hcontra
      simp at hdata
  | cons c cs ih =>
    intro acc w hw
    by_cases hc : c.isWhitespace
    · match acc with
      | [] =>
        rw [splitAcc_cons_nil, if_pos hc] at hw
        exact ih [] w hw
      | a :: acc =>
        rw [splitAcc_cons_cons, if_pos hc] at hw
        rcases List.mem_cons.mp hw with rfl | hw
        · intro hcontra
          have hdata : ((a :: acc).reverse : List Char) = [] := congrArg String.data hcontra
          simp at hdata
        · exact ih [] w hw
    · match acc with
      | [] =>
        rw [splitAcc_cons_nil, if_neg hc] at hw
        exact ih [c] w hw
      | a :: acc =>
        rw [splitAcc_cons_cons, if_neg hc] at hw
        exact ih (c :: a :: acc) w hw

theorem mem_pySplit_ne_empty {text w : String} (h : w ∈ pySplit text) : w ≠ "" :=
  mem_splitAcc_ne_empty text.data [] w h

/-- Python slice bound normalization: a negative index counts from the end of
the list, and the result is clamped to `[0, n]`. -/
def pyBound (n : Nat) (i : Int) : Nat :=
  min (if i < 0 then ((n : Int) + i).toNat else i.toNat) n

/-- Python `l[a:b]` for a list of words. -/
def pySlice (l : List String) (a b : Int) : List String :=
  (l.take (pyBound l.length b)).drop (pyBound l.length a)

theorem take_min_length {α} (l : List α) (b : Nat) :
    l.take (min b l.length) = l.take b := by
  rcases Nat.le_total b l.length with h | h
  · rw [Nat.min_eq_left h]
  · rw [Nat.min_eq_right h, List.take_length, List.take_of_length_le h]

theorem drop_min_length {α} (l t : List α) (a : Nat) (ht : t.length ≤ l.length) :
    t.drop (min a l.length) = t.drop a := by
  rcases Nat.le_total a l.length with h | h
  · rw [Nat.min_eq_left h]
  · rw [Nat.min_eq_right h, List.drop_eq_nil_of_le ht,
      List.drop_eq_nil_of_le (le_trans ht h)]

theorem pySlice_natCast (l : List String) (a b : Nat) :
    pySlice l (a : Int) (b : Int) = (l.take b).drop a := by
  unfold pySlice pyBound
  rw [if_neg (by omega), if_neg (by omega)]
  simp only [Int.toNat_natCast]
  rw [take_min_length]
  exact drop_min_length l _ a (by rw [List.length_take]; omega)

/-- Parameter auto-adjustment at the head of `auto_chunk` (rag_processor.py
lines 126-131): a document shorter than `target_size` shrinks `target_size` to
`max(50, len // 2)` and `overlap` to `max(10, target_size // 10)`; a document
longer than 5000 words doubles `target_size`, capped at 2000. -/
def adjustParams (nWords targetSize overlap : Nat) : Nat × Nat :=
  if nWords < targetSize then
    (max 50 (nWords / 2), max 10 (max 50 (nWords / 2) / 10))
  else if nWords > 5000 then
    (min (targetSize * 2) 2000, overlap)
  else
    (targetSize, overlap)

/-- The `while start < len(words)` loop of `auto_chunk` (rag_processor.py lines
136-140), one fuel unit per iteration: emit `words[start : start + targetSize]`
and advance `start` by `targetSize - overlap`, in `Int` exactly as Python's
unbounded signed arithmetic. `none` means the loop did not finish within the
given fuel. -/
def chunkLoop (words : List String) (targetSize overlap : Nat) :
    Int → Nat → Option (List (List String))
  | _, 0 => none
  | start, fuel + 1 =>
    if start < (words.length : Int) then
      (chunkLoop words targetSize overlap (start + targetSize - overlap) fuel).map
        (fun rest => pySlice words start (start + targetSize) :: rest)
    else
      some []

/-- Word-level `auto_chunk`: adjust the parameters, then run the sliding-window
loop from start 0. Fuel `words.length + 1` is sufficient whenever the adjusted
advance step is positive, and no fuel suffices otherwise. -/
def autoChunkWords (words : List String) (targetSize overlap : Nat) :
    Option (List (List String)) :=
  chunkLoop words (adjustParams words.length targetSize overlap).1
    (adjustParams words.length targetSize overlap).2 0 (words.length + 1)

/-- Python `" ".join(chunk_words)` (rag_processor.py line 139). -/
def joinWords : List String → String
  | [] => ""
  | [w] => w
  | w :: ws => w ++ " " ++ joinWords ws

/-- The function `auto_chunk` (rag_processor.py lines 124-142), with the
source's default parameters. `none` models the `while` loop running forever. -/
def auto_chunk (text : String) (targetSize : Nat := 800) (overlap : Nat := 120) :
    Option (List String) :=
  (autoChunkWords (pySplit text) targetSize overlap).map (fun cs => cs.map joinWords)

/-- Reference word-window recursion for a positive advance step: the windows
`words[start : start + targetSize]` at starts `0, step, 2·step, …` with
`step = targetSize - overlap`. Degenerates to `[]` when the step would be
non-positive, a case settled separately. -/
def chunksNat (words : List String) (targetSize overlap : Nat) (start : Nat) :
    List (List String) :=
  if h : start < words.length ∧ overlap < targetSize then
    (words.take (start + targetSize)).drop start ::
      chunksNat words targetSize overlap (start + (targetSize - overlap))
  else
    []
termination_by words.length - start
decreasing_by omega

theorem chunkLoop_eq_chunksNat {words : List String} {targetSize overlap : Nat}
    (hlt : overlap < targetSize) :
    ∀ (fuel : Nat) (start : Nat), words.length - start < fuel →
      chunkLoop words targetSize overlap (start : Int) fuel
        = some (chunksNat words targetSize overlap start) := by
  intro fuel
  induction fuel with
  | zero => intro start h; omega
  | succ fuel ih =>
    intro start h
    by_cases hs : start < words.length
    · have hcast : ((start : Int) + targetSize - overlap)
          = ((start + (targetSize - overlap) : Nat) : Int) := by push_cast; omega
      have hunfold : chunksNat words targetSize overlap start
          = (words.take (start + targetSize)).drop start ::
            chunksNat words targetSize overlap (start + (targetSize - overlap)) := by
        conv_lhs => rw [chunksNat]
        rw [dif_pos ⟨hs, hlt⟩]
      rw [chunkLoop, if_pos (by exact_mod_cast hs), hcast,
        ih (start + (targetSize - overlap)) (by omega), hunfold]
      have hslice : pySlice words (start : Int) ((start : Int) + targetSize)
          = (words.take (start + targetSize)).drop start := by
        have hc : ((start : Int) + targetSize) = ((start + targetSize : Nat) : Int) := by
          push_cast; ring
        rw [hc, pySlice_natCast]
      simp [hslice]
    · rw [chunkLoop, if_neg (by exact_mod_cast hs), chunksNat,
        dif_neg (by rintro ⟨h1, -⟩; omega)]

theorem chunkLoop_eq_chunksNat_zero {words : List String} {targetSize overlap : Nat}
    (hlt : overlap < targetSize) :
    chunkLoop words targetSize overlap 0 (words.length + 1)
      = some (chunksNat words targetSize overlap 0) := by
  have h := @chunkLoop_eq_chunksNat words targetSize overlap hlt (words.length + 1) 0 (by omega)
  simpa using h

theorem chunkLoop_none_of_step_nonpos {words : List String} {targetSize overlap : Nat}
    (hle : targetSize ≤ overlap) :
    ∀ (fuel : Nat) (start : Int), start < (words.length : Int) →
      chunkLoop words targetSize overlap start fuel = none := by
  intro fuel
  induction fuel with
  | zero => intro start h; rfl
  | succ fuel ih =>
    intro start h
    rw [chunkLoop, if_pos h, ih (start + targetSize - overlap) (by omega)]
    rfl

/-- Concatenation of the non-overlapping portion of each chunk: the first chunk
whole, every later chunk without its leading `overlap` words. -/
def dedupConcat (overlap : Nat) : List (List String) → List String
  | [] => []
  | c :: cs => c ++ (cs.map (fun d => d.drop overlap)).flatten

theorem drop_take_append_drop {α} (l : List α) (a b : Nat) (hab : a ≤ b) :
    (l.take b).drop a ++ l.drop b = l.drop a := by
  rw [List.drop_take]
  have hb : l.drop b = (l.drop a).drop (b - a) := by
    rw [List.drop_drop]
    congr 1
    omega
  rw [hb, List.take_append_drop]

theorem flatten_drop_chunksNat {words : List String} {targetSize overlap : Nat}
    (hlt : overlap < targetSize) :
    ∀ (n start : Nat), words.length - start ≤ n →
      ((chunksNat words targetSize overlap start).map (fun d => d.drop overlap)).flatten
        = words.drop (start + overlap) := by
  intro n
  induction n with
  | zero =>
    intro start h
    rw [chunksNat, dif_neg (by rintro ⟨h1, -⟩; omega)]
    simp [List.drop_eq_nil_of_le (by omega : words.length ≤ start + overlap)]
  | succ n ih =>
    intro start h
    by_cases hs : start < words.length
    · have hunfold : chunksNat words targetSize overlap start
          = (words.take (start + targetSize)).drop start ::
            chunksNat words targetSize overlap (start + (targetSize - overlap)) := by
        conv_lhs => rw [chunksNat]
        rw [dif_pos ⟨hs, hlt⟩]
      rw [hunfold]
      simp only [List.map_cons, List.flatten_cons]
      rw [ih (start + (targetSize - overlap)) (by omega), List.drop_drop]
      have h1 : start + (targetSize - overlap) + overlap = start + targetSize := by omega
      have h2 : start + overlap ≤ start + targetSize := by omega
      rw [h1, drop_take_append_drop words _ _ h2]
    · rw [chunksNat, dif_neg (by rintro ⟨h1, -⟩; omega)]
      simp [List.drop_eq_nil_of_le (by omega : words.length ≤ start + overlap)]

theorem dedupConcat_chunksNat {words : List String} {targetSize overlap : Nat}
    (hlt : overlap < targetSize) :
    dedupConcat overlap (chunksNat words targetSize overlap 0) = words := by
  by_cases h0 : 0 < words.length
  · have hunfold : chunksNat words targetSize overlap 0
        = (words.take (0 + targetSize)).drop 0 ::
          chunksNat words targetSize overlap (0 + (targetSize - overlap)) := by
      conv_lhs => rw [chunksNat]
      rw [dif_pos ⟨h0, hlt⟩]
    rw [hunfold]
    simp only [dedupConcat]
    rw [flatten_drop_chunksNat hlt words.length (0 + (targetSize - overlap)) (by omega)]
    have h1 : 0 + (targetSize - overlap) + overlap = targetSize := by omega
    rw [h1]
    simp only [Nat.zero_add, List.drop_zero]
    exact List.take_append_drop targetSize words
  · rw [chunksNat, dif_neg (by rintro ⟨h1, -⟩; omega)]
    have : words = [] := List.length_eq_zero.mp (by omega)
    rw [this]
    rfl

theorem chunksNat_chunks {words : List String} {targetSize overlap : Nat} :
    ∀ (n start : Nat), words.length - start ≤ n →
      ∀ c ∈ chunksNat words targetSize overlap start, c ≠ [] ∧ ∀ w ∈ c, w ∈ words := by
  intro n
  induction n with
  | zero =>
    intro start h c hc
    rw [chunksNat, dif_neg (by rintro ⟨h1, -⟩; omega)] at hc
    cases hc
  | succ n ih =>
    intro start h c hc
    by_cases hs : start < words.length ∧ overlap < targetSize
    · rw [chunksNat] at hc
      rw [dif_pos hs] at hc
      rcases List.mem_cons.mp hc with rfl | hc
      · constructor
        · intro hnil
          have hlen : ((words.take (start + targetSize)).drop start).length = 0 := by
            rw [hnil]; rfl
          rw [List.length_drop, List.length_take] at hlen
          omega
        · intro w hw
          exact (List.take_sublist _ _).subset ((List.drop_sublist _ _).subset hw)
      · exact ih (start + (targetSize - overlap)) (by omega) c hc
    · rw [chunksNat, dif_neg hs] at hc
      cases hc

theorem joinWords_ne_empty {ws : List String} (hne : ws ≠ [])
    (hmem : ∀ w ∈ ws, w ≠ "") : joinWords ws ≠ "" := by
  match ws, hne with
  | [w], _ => exact hmem w (List.mem_singleton.mpr rfl)
  | w :: x :: xs, _ =>
    intro hcontra
    have hd : (w ++ " " ++ joinWords (x :: xs)).data = ([] : List Char) :=
      congrArg String.data hcontra
    rw [String.data_append, String.data_append] at hd
    rcases List.append_eq_nil.mp hd with ⟨hd1, -⟩
    rcases List.append_eq_nil.mp hd1 with ⟨-, hsp⟩
    cases hsp

/-- C4 (amended): for every text and every `targetSize`, `overlap` with
`overlap < targetSize`, provided the adaptive adjustment also leaves the
adjusted overlap below the adjusted target size (it can fail to do so only for
documents of more than 5000 words when `min(2·targetSize, 2000) ≤ overlap`),
`auto_chunk` terminates, and concatenating the non-overlapping portion of each
chunk in order reconstructs the document's word sequence exactly. -/
theorem auto_chunk_reconstructs (text : String) (targetSize overlap : Nat)
    (hlt : overlap < targetSize)
    (hadj : (adjustParams (pySplit text).length targetSize overlap).2
        < (adjustParams (pySplit text).length targetSize overlap).1) :
    ∃ css, autoChunkWords (pySplit text) targetSize overlap = some css
      ∧ dedupConcat (adjustParams (pySplit text).length targetSize overlap).2 css
          = pySplit text
      ∧ auto_chunk text targetSize overlap = some (css.map joinWords) := by
  refine ⟨chunksNat (pySplit text) (adjustParams (pySplit text).length targetSize overlap).1
      (adjustParams (pySplit text).length targetSize overlap).2 0, ?_, ?_, ?_⟩
  · unfold autoChunkWords
    exact chunkLoop_eq_chunksNat_zero hadj
  · exact dedupConcat_chunksNat hadj
  · unfold auto_chunk autoChunkWords
    rw [chunkLoop_eq_chunksNat_zero hadj]
    rfl

/-- Witness for C4 (amended) on the three-word document `"a b c"` with
`targetSize = 2`, `overlap = 1`. -/
theorem auto_chunk_reconstructs_witness :
    ∃ css, autoChunkWords (pySplit "a b c") 2 1 = some css
      ∧ dedupConcat (adjustParams (pySplit "a b c").length 2 1).2 css = pySplit "a b c"
      ∧ auto_chunk "a b c" 2 1 = some (css.map joinWords) :=
  auto_chunk_reconstructs "a b c" 2 1 (by norm_num) (by decide)

/-- Counterexample to C4 as stated: `overlap = 2000 < 2001 = targetSize`, yet on
a 5001-word document the long-document adjustment lowers `targetSize` to
`min(2·2001, 2000) = 2000 ≤ overlap`, the advance step becomes non-positive and
the chunking loop never terminates. -/
theorem auto_chunk_overlap_lt_size_diverges :
    2000 < 2001
    ∧ autoChunkWords (List.replicate 5001 "w") 2001 2000 = none := by
  refine ⟨by norm_num, ?_⟩
  unfold autoChunkWords
  have hlen : (List.replicate 5001 "w").length = 5001 := by rw [List.length_replicate]
  have hadj : adjustParams (List.replicate 5001 "w").length 2001 2000 = (2000, 2000) := by
    rw [hlen]
    decide
  rw [hadj]
  exact chunkLoop_none_of_step_nonpos (by norm_num) _ 0 (by rw [hlen]; omega)

/-- C5: `auto_chunk` does not detect a non-positive advance step. With
`targetSize = overlap = 50` on a 100-word document (no adaptive adjustment
fires), there is no configuration-error path: the sliding-window loop is
entered and never terminates — no amount of fuel makes it return. -/
theorem auto_chunk_nonpos_step_loops_forever :
    autoChunkWords (List.replicate 100 "w") 50 50 = none
    ∧ ∀ fuel : Nat, chunkLoop (List.replicate 100 "w") 50 50 0 fuel = none := by
  have hlen : (List.replicate 100 "w").length = 100 := by rw [List.length_replicate]
  have hloop : ∀ fuel : Nat, chunkLoop (List.replicate 100 "w") 50 50 0 fuel = none := by
    intro fuel
    exact chunkLoop_none_of_step_nonpos (le_refl 50) fuel 0 (by rw [hlen]; omega)
  constructor
  · unfold autoChunkWords
    have hadj : adjustParams (List.replicate 100 "w").length 50 50 = (50, 50) := by
      rw [hlen]
      decide
    rw [hadj]
    exact hloop _
  · exact hloop

/-- Counterexample to C8 as stated: the empty document has fewer words (0) than
`targetSize = 800`, yet `auto_chunk` returns no chunks at all (the loop guard
`0 < 0` fails immediately and the empty chunk list is returned). -/
theorem auto_chunk_empty_doc_no_chunks :
    auto_chunk "" 800 120 = some [] ∧ (pySplit "").length < 800 := by
  constructor
  · decide
  · decide

/-- C8 (amended): on a document with at least one word and fewer words than
`targetSize`, `auto_chunk` terminates and returns at least one chunk, and
every returned chunk is a non-empty string. -/
theorem auto_chunk_short_doc_nonempty (text : String) (targetSize overlap : Nat)
    (h1 : 0 < (pySplit text).length) (h2 : (pySplit text).length < targetSize) :
    ∃ cs, auto_chunk text targetSize overlap = some cs
      ∧ cs ≠ [] ∧ ∀ c ∈ cs, c ≠ "" := by
  have hadjeq : adjustParams (pySplit text).length targetSize overlap
      = (max 50 ((pySplit text).length / 2),
         max 10 (max 50 ((pySplit text).length / 2) / 10)) := by
    unfold adjustParams
    rw [if_pos h2]
  have hadj : (adjustParams (pySplit text).length targetSize overlap).2
      < (adjustParams (pySplit text).length targetSize overlap).1 := by
    rw [hadjeq]
    simp only
    omega
  refine ⟨(chunksNat (pySplit text) (adjustParams (pySplit text).length targetSize overlap).1
      (adjustParams (pySplit text).length targetSize overlap).2 0).map joinWords, ?_, ?_, ?_⟩
  · unfold auto_chunk autoChunkWords
    rw [chunkLoop_eq_chunksNat_zero hadj]
    rfl
  · have hunfold : chunksNat (pySplit text)
        (adjustParams (pySplit text).length targetSize overlap).1
        (adjustParams (pySplit text).length targetSize overlap).2 0
        = ((pySplit text).take
            (0 + (adjustParams (pySplit text).length targetSize overlap).1)).drop 0 ::
          chunksNat (pySplit text)
            (adjustParams (pySplit text).length targetSize overlap).1
            (adjustParams (pySplit text).length targetSize overlap).2
            (0 + ((adjustParams (pySplit text).length targetSize overlap).1
              - (adjustParams (pySplit text).length targetSize overlap).2)) := by
      conv_lhs => rw [chunksNat]
      rw [dif_pos ⟨h1, hadj⟩]
    rw [hunfold]
    simp
  · intro c hc
    rcases List.mem_map.mp hc with ⟨d, hd, rfl⟩
    obtain ⟨hne, hsub⟩ :=
      chunksNat_chunks (pySplit text).length 0 (by omega) d hd
    exact joinWords_ne_empty hne (fun w hw => mem_pySplit_ne_empty (hsub w hw))

/-- Witness for C8 (amended) on the two-word document `"hello world"`. -/
theorem auto_chunk_short_doc_nonempty_witness :
    ∃ cs, auto_chunk "hello world" 800 120 = some cs ∧ cs ≠ [] ∧ ∀ c ∈ cs, c ≠ "" :=
  auto_chunk_short_doc_nonempty "hello world" 800 120 (by decide) (by decide)

/-- With the source's default parameters (`target_size = 800`, `overlap = 120`,
rag_processor.py lines 22-23) the adjusted advance step is always positive. -/
theorem adjustParams_default_pos (n : Nat) :
    (adjustParams n 800 120).2 < (adjustParams n 800 120).1 := by
  unfold adjustParams
  split_ifs with h1 h2
  · simp only
    omega
  · simp only
    omega
  · simp only
    omega

/-- Chunking as invoked by `ingest_folder` (rag_processor.py line 220):
`auto_chunk(text)` with the default parameters, which always terminates. -/
def autoChunkDefault (text : String) : List String :=
  (auto_chunk text 800 120).getD []

theorem auto_chunk_default_total (text : String) :
    auto_chunk text 800 120 = some (autoChunkDefault text) := by
  unfold autoChunkDefault auto_chunk autoChunkWords
  rw [chunkLoop_eq_chunksNat_zero (adjustParams_default_pos (pySplit text).length)]
  rfl

/-! Similarity search (`similarity_search`, rag_processor.py lines 107-118;
`search_documents`, mcp_rag_server.py lines 37-68) -/

/-- Squared Euclidean distance between two vectors. The pgvector operator `<->`
appearing in the ORDER BY is the Euclidean distance; squaring preserves its
ordering on every result set and keeps the model inside `ℚ`. -/
def dist2 (u v : List ℚ) : ℚ := ((u.zip v).map (fun p => (p.1 - p.2) ^ 2)).sum

/-- Row comparison induced by `ORDER BY vector <-> query`: non-decreasing
distance to the query vector. -/
def distLE (qv : List ℚ) (a b : Row) : Prop :=
  dist2 qv a.vector ≤ dist2 qv b.vector

instance (qv : List ℚ) (a b : Row) : Decidable (distLE qv a b) :=
  inferInstanceAs (Decidable (dist2 qv a.vector ≤ dist2 qv b.vector))

instance (qv : List ℚ) : IsTotal Row (distLE qv) := ⟨fun a b => le_total _ _⟩

instance (qv : List ℚ) : IsTrans Row (distLE qv) := ⟨fun _ _ _ => le_trans⟩

/-- Row selection of the similarity SELECT shared by
`DatabaseManager.similarity_search` (rag_processor.py lines 111-117) and the
MCP server's `search_documents` (mcp_rag_server.py lines 48-54):
`FROM document_chunk WHERE collection_name = c ORDER BY vector <-> qv LIMIT k`. -/
def similarity_search_rows (store : List Row) (qv : List ℚ) (collection : String)
    (limit : Nat) : List Row :=
  ((store.filter (fun r => r.collection_name == collection)).insertionSort
    (distLE qv)).take limit

/-- Result tuples as returned by the SELECT: `(text, vmetadata, distance)`, the
exposed distance computed by the same `vector <-> qv` expression that orders
the rows. -/
def similarity_search (store : List Row) (qv : List ℚ) (collection : String)
    (limit : Nat) : List (String × Meta × ℚ) :=
  (similarity_search_rows store qv collection limit).map
    (fun r => (r.text, r.vmetadata, dist2 qv r.vector))

/-- Number of `%s` placeholders left in the SQL text of
`DatabaseManager.similarity_search` (rag_processor.py lines 111-116) after the
query vector has been interpolated as a literal: `collection_name = %s` and
`LIMIT %s`. -/
def similaritySearchPlaceholders : Nat := 2

/-- Number of parameters `DatabaseManager.similarity_search` passes to
`cursor.execute` (rag_processor.py line 117): `(query_vector, collection,
limit)`. -/
def similaritySearchParams : Nat := 3

/-- Placeholders of the same SELECT in the MCP server's `search_documents`
(mcp_rag_server.py lines 48-54). -/
def mcpSearchPlaceholders : Nat := 2

/-- Parameters bound by `search_documents` (mcp_rag_server.py line 54):
`(collection, limit)`. -/
def mcpSearchParams : Nat := 2

/-- C3: the similarity SELECT returns at most `limit` tuples; every returned
tuple is the projection of a stored row of the queried collection with its
true distance; and the results are sorted by non-decreasing exposed distance.
The MCP server's `search_documents` binds exactly as many parameters as its
SQL has placeholders, while `DatabaseManager.similarity_search` passes one
parameter too many — psycopg2 rejects such a call before the query runs. -/
theorem search_spec (store : List Row) (qv : List ℚ) (collection : String) (limit : Nat) :
    (similarity_search store qv collection limit).length ≤ limit
    ∧ (∀ x ∈ similarity_search store qv collection limit,
        ∃ r ∈ store, r.collection_name = collection
          ∧ x = (r.text, r.vmetadata, dist2 qv r.vector))
    ∧ List.Sorted (fun x y => x.2.2 ≤ y.2.2) (similarity_search store qv collection limit)
    ∧ mcpSearchParams = mcpSearchPlaceholders
    ∧ similaritySearchParams ≠ similaritySearchPlaceholders := by
  refine ⟨?_, ?_, ?_, rfl, by decide⟩
  · unfold similarity_search similarity_search_rows
    rw [List.length_map, List.length_take]
    omega
  · intro x hx
    unfold similarity_search at hx
    rcases List.mem_map.mp hx with ⟨r, hr, rfl⟩
    unfold similarity_search_rows at hr
    have hr2 : r ∈ (store.filter (fun r => r.collection_name == collection)).insertionSort
        (distLE qv) := (List.take_sublist _ _).subset hr
    have hr3 : r ∈ store.filter (fun r => r.collection_name == collection) :=
      (List.perm_insertionSort (distLE qv) _).subset hr2
    rcases List.mem_filter.mp hr3 with ⟨hmem, hbeq⟩
    exact ⟨r, hmem, eq_of_beq hbeq, rfl⟩
  · unfold similarity_search similarity_search_rows
    have hsorted : List.Sorted (distLE qv)
        ((store.filter (fun r => r.collection_name == collection)).insertionSort
          (distLE qv)) :=
      List.sorted_insertionSort (distLE qv) _
    have htake : List.Sorted (distLE qv)
        (((store.filter (fun r => r.collection_name == collection)).insertionSort
          (distLE qv)).take limit) :=
      List.Pairwise.sublist (List.take_sublist _ _) hsorted
    exact htake.map _ (fun a b hab => hab)

/-- Witness for C3 applying `search_spec` to a one-row store. -/
theorem search_spec_witness :
    (similarity_search [rowA] [1] "docs@v1" 5).length ≤ 5
    ∧ List.Sorted (fun x y => x.2.2 ≤ y.2.2) (similarity_search [rowA] [1] "docs@v1" 5) :=
  ⟨(search_spec [rowA] [1] "docs@v1" 5).1, (search_spec [rowA] [1] "docs@v1" 5).2.2.1⟩

/-! Distance metrics (C7): pgvector operator classes and operators in the
source SQL. `vector_cosine_ops`, `<=>` select the cosine metric; `<->` is the
Euclidean (l2) distance operator. -/

/-- Distance metric selected by a pgvector operator or index operator class. -/
inductive Metric where
  | l2
  | cosine
deriving DecidableEq

/-- Opclass of the ivfflat ANN index created by `initialize_schema`
(rag_processor.py line 78): `vector_cosine_ops`. -/
def ivfflatIndexMetric : Metric := Metric.cosine

/-- Opclass of the hnsw ANN index created by `initialize_schema` (line 85):
`vector_cosine_ops`. -/
def hnswIndexMetric : Metric := Metric.cosine

/-- Operator ranking results in `DatabaseManager.similarity_search` (line 115):
`vector <-> query`. -/
def similaritySearchOrderMetric : Metric := Metric.l2

/-- Operator computing the exposed `distance` column of the same SELECT
(line 112): `vector <-> query`. -/
def similaritySearchExposedMetric : Metric := Metric.l2

/-- Operator ranking and exposing distance in the MCP server's
`search_documents` (mcp_rag_server.py lines 49-52): `vector <-> query`. -/
def mcpSearchMetric : Metric := Metric.l2

/-- Operator of the nearest-neighbor query in check_db.py (lines 38-42):
`vector <=> query`. -/
def checkDbQueryMetric : Metric := Metric.cosine

/-- Counterexample to C7 as stated: the metric ranking search results (`<->`,
Euclidean) is not the metric the ANN indexes are built with
(`vector_cosine_ops`, cosine). -/
theorem search_metric_ne_index_metric :
    similaritySearchOrderMetric ≠ ivfflatIndexMetric := by decide

/-- C7 (amended): within each search path the ranking operator and the distance
exposed to callers agree (`<->` in both `similarity_search` and the MCP
server), the two ANN indexes agree with each other and with check_db.py's
query (cosine); but query ranking uses the Euclidean metric, which differs
from the cosine metric the ANN indexes are built with, so the ranking is not
the one the indexes accelerate. -/
theorem search_metric_consistency :
    similaritySearchOrderMetric = similaritySearchExposedMetric
    ∧ mcpSearchMetric = similaritySearchOrderMetric
    ∧ ivfflatIndexMetric = hnswIndexMetric
    ∧ checkDbQueryMetric = ivfflatIndexMetric
    ∧ similaritySearchOrderMetric = Metric.l2
    ∧ ivfflatIndexMetric = Metric.cosine
    ∧ similaritySearchOrderMetric ≠ ivfflatIndexMetric := by decide

/-! ContentIdentity (`hash_id`, rag_processor.py lines 179-180)

Python computes `hashlib.sha1` of the encoded f-string `collection`, `":"`,
`text`, and takes the lowercase `hexdigest()`.
`hashlib` is Python's standard library, outside the repository; SHA-1 is
modelled below bit-for-bit (FIPS 180-1) over the UTF-8 bytes of the input, so
`hash_id` is a real executable function. The claims about `hash_id` are
settled at the level of its input encoding `collection ++ ":" ++ text`, which
the hash is applied to. -/

/-- UTF-8 encoding of one character (what Python's `str.encode()` produces per
code point), as a list of byte values. -/
def utf8Bytes (c : Char) : List Nat :=
  let n := c.toNat
  if n < 128 then [n]
  else if n < 2048 then
    [192 + n / 64, 128 + n % 64]
  else if n < 65536 then
    [224 + n / 4096, 128 + n / 64 % 64, 128 + n % 64]
  else
    [240 + n / 262144, 128 + n / 4096 % 64, 128 + n / 64 % 64, 128 + n % 64]

/-- UTF-8 bytes of a string (Python `str.encode()`). -/
def strBytes (s : String) : List Nat := (s.data.map utf8Bytes).flatten

/-- Truncation to a 32-bit word. -/
def w32 (n : Nat) : Nat := n % 4294967296

/-- Left rotation of a 32-bit word by `k` bits. -/
def rotl (k n : Nat) : Nat := w32 (n * 2 ^ k + n / 2 ^ (32 - k))

/-- SHA-1 round function for round `t`. -/
def shaF (t b c d : Nat) : Nat :=
  if t < 20 then (b &&& c) ||| ((4294967295 - b) &&& d)
  else if t < 40 then (b ^^^ c) ^^^ d
  else if t < 60 then ((b &&& c) ||| (b &&& d)) ||| (c &&& d)
  else (b ^^^ c) ^^^ d

/-- SHA-1 round constant for round `t`. -/
def shaK (t : Nat) : Nat :=
  if t < 20 then 1518500249
  else if t < 40 then 1859775393
  else if t < 60 then 2400959708
  else 3395469782

/-- Big-endian 32-bit word from four bytes. -/
def beWord (a b c d : Nat) : Nat := ((a * 256 + b) * 256 + c) * 256 + d

/-- Group a byte list into big-endian 32-bit words. -/
def toWords : List Nat → List Nat
  | a :: b :: c :: d :: rest => beWord a b c d :: toWords rest
  | _ => []

/-- Message-schedule extension: append `n` further words, each the 1-bit left
rotation of the xor of the words 3, 8, 14 and 16 positions back. -/
def extendWords (ws : List Nat) : Nat → List Nat
  | 0 => ws
  | n + 1 =>
    let prev := extendWords ws n
    prev ++ [rotl 1 ((((prev.getD (prev.length - 3) 0) ^^^ (prev.getD (prev.length - 8) 0))
      ^^^ (prev.getD (prev.length - 14) 0)) ^^^ (prev.getD (prev.length - 16) 0))]

/-- One SHA-1 compression round on the five-word working state. -/
def shaRound (st : Nat × Nat × Nat × Nat × Nat) (t wt : Nat) :
    Nat × Nat × Nat × Nat × Nat :=
  let a := st.1
  let b := st.2.1
  let c := st.2.2.1
  let d := st.2.2.2.1
  let e := st.2.2.2.2
  (w32 (rotl 5 a + shaF t b c d + e + shaK t + wt), a, rotl 30 b, c, d)

/-- SHA-1 compression of one 64-byte block into the running hash state. -/
def shaBlock (h : Nat × Nat × Nat × Nat × Nat) (block : List Nat) :
    Nat × Nat × Nat × Nat × Nat :=
  let ws := extendWords (toWords block) 64
  let f := ((List.range 80).zip ws).foldl (fun st p => shaRound st p.1 p.2) h
  (w32 (h.1 + f.1), w32 (h.2.1 + f.2.1), w32 (h.2.2.1 + f.2.2.1),
    w32 (h.2.2.2.1 + f.2.2.2.1), w32 (h.2.2.2.2 + f.2.2.2.2))

/-- Split a byte list into 64-byte blocks. -/
def chunks64 : List Nat → List (List Nat)
  | [] => []
  | a :: rest => ((a :: rest).take 64) :: chunks64 ((a :: rest).drop 64)
termination_by l => l.length
decreasing_by
  simp only [List.length_drop, List.length_cons]
  omega

/-- Big-endian 8-byte encoding of a number (the padded bit length). -/
def beBytes8 (n : Nat) : List Nat :=
  [n / 72057594037927936 % 256, n / 281474976710656 % 256,
   n / 1099511627776 % 256, n / 4294967296 % 256,
   n / 16777216 % 256, n / 65536 % 256, n / 256 % 256, n % 256]

/-- Big-endian 4-byte encoding of a 32-bit word. -/
def beBytes4 (n : Nat) : List Nat :=
  [n / 16777216 % 256, n / 65536 % 256, n / 256 % 256, n % 256]

/-- SHA-1 padding: a `0x80` byte, zeros to 56 mod 64, then the 64-bit
big-endian bit length of the message. -/
def sha1pad (msg : List Nat) : List Nat :=
  msg ++ [128] ++ List.replicate ((64 - (msg.length + 9) % 64) % 64) 0
    ++ beBytes8 (msg.length * 8)

/-- The 20-byte SHA-1 digest of a byte list (FIPS 180-1). -/
def sha1digest (msg : List Nat) : List Nat :=
  let h := (chunks64 (sha1pad msg)).foldl shaBlock
    (1732584193, 4023233417, 2562383102, 271733878, 3285377520)
  beBytes4 h.1 ++ beBytes4 h.2.1 ++ beBytes4 h.2.2.1 ++ beBytes4 h.2.2.2.1
    ++ beBytes4 h.2.2.2.2

/-- Lowercase hexadecimal digit. -/
def hexDigit (n : Nat) : Char :=
  if n < 10 then Char.ofNat (48 + n) else Char.ofNat (87 + n)

/-- Lowercase hexadecimal rendering of a byte list (Python `hexdigest()`). -/
def toHex (bytes : List Nat) : String :=
  String.mk ((bytes.map (fun b => [hexDigit (b / 16), hexDigit (b % 16)])).flatten)

/-- Python `hashlib.sha1(s.encode()).hexdigest()`. -/
def sha1hex (s : String) : String := toHex (sha1digest (strBytes s))

/-- The exact string `hash_id` feeds to the hash: the Python f-string joining
the collection, a colon and the text (rag_processor.py line 180). -/
def hashInput (text : String) (collection : String) : String :=
  collection ++ ":" ++ text

/-- The function `hash_id` (rag_processor.py lines 179-180). -/
def hash_id (text : String) (collection : String) : String :=
  sha1hex (hashInput text collection)

theorem append_sep_inj {α} {a : α} :
    ∀ (xs xs' ys ys' : List α), a ∉ xs → a ∉ xs' →
      xs ++ a :: ys = xs' ++ a :: ys' → xs = xs' ∧ ys = ys' := by
  intro xs
  induction xs with
  | nil =>
    intro xs' ys ys' hx hx' heq
    cases xs' with
    | nil =>
      simp only [List.nil_append] at heq
      injection heq with h1 h2
      exact ⟨rfl, h2⟩
    | cons x xs' =>
      simp only [List.nil_append, List.cons_append] at heq
      injection heq with h1 h2
      subst h1
      exact absurd (List.mem_cons_self a xs') hx'
  | cons x xs ih =>
    intro xs' ys ys' hx hx' heq
    cases xs' with
    | nil =>
      simp only [List.nil_append, List.cons_append] at heq
      injection heq with h1 h2
      subst h1
      exact absurd (List.mem_cons_self x xs) hx
    | cons x' xs' =>
      simp only [List.cons_append] at heq
      injection heq with h1 h2
      subst h1
      have hx2 : a ∉ xs := fun hmem => hx (List.mem_cons_of_mem _ hmem)
      have hx'2 : a ∉ xs' := fun hmem => hx' (List.mem_cons_of_mem _ hmem)
      obtain ⟨rfl, hys⟩ := ih xs' ys ys' hx2 hx'2 h2
      exact ⟨rfl, hys⟩

theorem hashInput_inj {c c' t t' : String}
    (hc : (':' : Char) ∉ c.data) (hc' : (':' : Char) ∉ c'.data)
    (heq : hashInput t c = hashInput t' c') : c = c' ∧ t = t' := by
  have hsep : (":" : String).data = [':'] := rfl
  have hdata : c.data ++ ':' :: t.data = c'.data ++ ':' :: t'.data := by
    have h1 := congrArg String.data heq
    simpa [hashInput, String.data_append, hsep] using h1
  obtain ⟨h1, h2⟩ := append_sep_inj c.data c'.data t.data t'.data hc hc' hdata
  exact ⟨String.ext h1, String.ext h2⟩

/-- Counterexample to C6 as stated: the pairs `(collection, text)` given by
`("a:b", "c")` and `("a", "b:c")` are distinct, yet both encode to the same
hash input `"a:b:c"`, so `hash_id` gives them the same id. -/
theorem hash_id_not_injective :
    hash_id "c" "a:b" = hash_id "b:c" "a"
    ∧ (("a:b", "c") : String × String) ≠ ("a", "b:c") := by
  constructor
  · show sha1hex (hashInput "c" "a:b") = sha1hex (hashInput "b:c" "a")
    exact congrArg sha1hex (by decide)
  · decide

/-- C6 (amended): `hash_id` is deterministic and factors through the encoded
string `collection ++ ":" ++ text`. For collections free of the separator
character `':'`, distinct `(collection, text)` pairs always yield distinct
hash inputs — hence distinct ids up to SHA-1 collision resistance. Pairs whose
encodings coincide (possible exactly when a collection contains `':'`) always
receive the same id. -/
theorem hash_id_deterministic_separating (c c' t t' : String)
    (hc : (':' : Char) ∉ c.data) (hc' : (':' : Char) ∉ c'.data)
    (hne : (c, t) ≠ (c', t')) :
    hash_id t c = hash_id t c
    ∧ hash_id t c = sha1hex (hashInput t c)
    ∧ hashInput t c ≠ hashInput t' c' := by
  refine ⟨rfl, rfl, ?_⟩
  intro heq
  obtain ⟨h1, h2⟩ := hashInput_inj hc hc' heq
  exact hne (by rw [h1, h2])

/-- Witness for C6 (amended) at two concrete colon-free collections. -/
theorem hash_id_deterministic_separating_witness :
    hash_id "z" "x" = hash_id "z" "x"
    ∧ hash_id "z" "x" = sha1hex (hashInput "z" "x")
    ∧ hashInput "z" "x" ≠ hashInput "z" "y" :=
  hash_id_deterministic_separating "x" "y" "z" "z" (by decide) (by decide) (by decide)

/-! Embedder (`Embedder.embed`, rag_processor.py lines 148-173) -/

/-- Python argument of `Embedder.embed`: either a bare string or a list of
strings (the `isinstance(texts, str)` check on lines 154-155). -/
inductive StrOrList where
  | str (s : String)
  | list (l : List String)

/-- The request loop of `Embedder.embed` (lines 157-169): one request per text
in order, collecting the embedding vectors; a failed request
(`raise_for_status`) aborts the loop with that failure. The external embedding
service is the function argument `svc`. -/
def embedTexts (svc : String → Except String (List ℚ)) :
    List String → Except String (List (List ℚ))
  | [] => .ok []
  | t :: ts =>
    match svc t with
    | .error e => .error e
    | .ok v =>
      match embedTexts svc ts with
      | .error e => .error e
      | .ok vs => .ok (v :: vs)

/-- The method `Embedder.embed` (rag_processor.py lines 153-169): a bare string is wrapped
into a one-element list before the request loop runs. -/
def embed (svc : String → Except String (List ℚ)) (texts : StrOrList) :
    Except String (List (List ℚ)) :=
  match texts with
  | .str s => embedTexts svc [s]
  | .list l => embedTexts svc l

/-- C10: `Embedder.embed` on a single string behaves exactly like `embed` on
the one-element list of it, and when the service embeds the string as `v` the
result is the one-element list `[v]`. -/
theorem embed_str_eq_singleton (svc : String → Except String (List ℚ)) (s : String) :
    embed svc (StrOrList.str s) = embed svc (StrOrList.list [s])
    ∧ ∀ v, svc s = .ok v → embed svc (StrOrList.str s) = .ok [v] := by
  refine ⟨rfl, ?_⟩
  intro v hv
  simp [embed, embedTexts, hv]

/-- Witness for C10 at a concrete service and string. -/
theorem embed_str_eq_singleton_witness :
    embed (fun _ => .ok [(1 : ℚ)]) (StrOrList.str "q")
        = embed (fun _ => .ok [(1 : ℚ)]) (StrOrList.list ["q"])
    ∧ embed (fun _ => .ok [(1 : ℚ)]) (StrOrList.str "q") = .ok [[(1 : ℚ)]] :=
  ⟨(embed_str_eq_singleton _ "q").1,
   (embed_str_eq_singleton (fun _ => .ok [(1 : ℚ)]) "q").2 [(1 : ℚ)] rfl⟩

/-! Ingestion pipeline (`process_file` lines 182-201, `ingest_folder` lines
203-229) -/

/-- A file handed to ingestion: its source name, its product label (in the
source, the basename and the first folder of the path relative to the
ingestion root) and its text contents. -/
structure IngestFile where
  source : String
  product : String
  contents : String
deriving DecidableEq

/-- The function `process_file` (rag_processor.py lines 182-201): embed the file's chunks,
then build one row per chunk: the id from `hash_id(chunk, collection)`, the
vector, the collection, the chunk text and the source/product metadata. An embedding failure propagates to the
caller. (As shipped the function also always raises for two independent
reasons — `ingest_folder` calls it with five arguments for four parameters,
and it reads an undefined global `base_folder`; the model keeps its intended
data flow, under which the failure-isolation question is settled below.) -/
def process_file (svc : String → Except String (List ℚ)) (chunks : List String)
    (source product collection : String) : Except String (List Row) :=
  match embedTexts svc chunks with
  | .error e => .error e
  | .ok vectors =>
    .ok ((chunks.zip vectors).map (fun p =>
      ⟨hash_id p.1 collection, p.2, collection, p.1, ⟨source, product⟩⟩))

/-- The fan-out/fan-in of `ingest_folder` (lines 213-227): every file is
chunked with the default parameters and embedded; `future.result()` re-raises
the first failure, and each success contributes its rows to the batch. -/
def collectRows (svc : String → Except String (List ℚ)) (collection : String) :
    List IngestFile → Except String (List Row)
  | [] => .ok []
  | f :: fs =>
    match process_file svc (autoChunkDefault f.contents) f.source f.product collection with
    | .error e => .error e
    | .ok rows =>
      match collectRows svc collection fs with
      | .error e => .error e
      | .ok rest => .ok (rows ++ rest)

/-- The function `ingest_folder` (rag_processor.py lines 203-229): on success all collected
rows are handed to `insert_chunks` in one batch; an embedding failure in any
file propagates out of the function, `db.insert_chunks(rows)` on line 229 is
never reached and the store is left untouched. The function builds no report
of any kind (in the source it returns `None`); the model returns the visible
store together with the propagated error, if any. -/
def ingest_folder (svc : String → Except String (List ℚ))
    (files : List IngestFile) (collection : String) (st : List Row) :
    List Row × Option String :=
  match collectRows svc collection files with
  | .error e => (st, some e)
  | .ok rows => (insert_chunks st rows, none)

theorem collectRows_error_of_mem (svc : String → Except String (List ℚ))
    (collection : String) :
    ∀ (files : List IngestFile) (f : IngestFile), f ∈ files →
      (∃ e, embedTexts svc (autoChunkDefault f.contents) = .error e) →
      ∃ e, collectRows svc collection files = .error e := by
  intro files
  induction files with
  | nil => intro f hf; cases hf
  | cons g fs ih =>
    rintro f hf ⟨e, he⟩
    rcases List.mem_cons.mp hf with rfl | hf
    · refine ⟨e, ?_⟩
      have hpf : process_file svc (autoChunkDefault f.contents) f.source f.product collection
          = .error e := by
        unfold process_file
        rw [he]
      unfold collectRows
      rw [hpf]
    · cases hpf : process_file svc (autoChunkDefault g.contents) g.source g.product collection with
      | error e' =>
        refine ⟨e', ?_⟩
        unfold collectRows
        rw [hpf]
      | ok rows =>
        obtain ⟨e', he'⟩ := ih f hf ⟨e, he⟩
        refine ⟨e', ?_⟩
        unfold collectRows
        rw [hpf, he']

/-- C2 (amended): an embedding failure in any one file of an ingestion run is
not isolated and not recorded anywhere: `ingest_folder` re-raises it, no
report exists, and no rows — including the successfully embedded sibling
files' rows — are committed; the visible store is exactly the one from before
the run. -/
theorem ingest_folder_failure_aborts_all (svc : String → Except String (List ℚ))
    (files : List IngestFile) (collection : String) (st : List Row)
    (h : ∃ f ∈ files, ∃ e, embedTexts svc (autoChunkDefault f.contents) = .error e) :
    ∃ e, ingest_folder svc files collection st = (st, some e) := by
  obtain ⟨f, hf, he⟩ := h
  obtain ⟨e, hce⟩ := collectRows_error_of_mem svc collection files f hf he
  refine ⟨e, ?_⟩
  unfold ingest_folder
  rw [hce]

/-- Embedding service that fails exactly on the text `"gamma delta"`. -/
def svcOneBad : String → Except String (List ℚ) :=
  fun t => if t == "gamma delta" then .error "boom" else .ok [1]

/-- One-chunk file whose text `svcOneBad` embeds successfully. -/
def fileGood : IngestFile := ⟨"a.txt", "p", "alpha beta"⟩

/-- One-chunk file whose text makes `svcOneBad` fail. -/
def fileBad : IngestFile := ⟨"b.txt", "p", "gamma delta"⟩

/-- Counterexample to C2 as stated: of two files exactly one fails to embed
(`process_file` on the first file succeeds, the second file's embedding
errors), yet `ingest_folder` aborts the whole run — the result is the
untouched empty store paired with the re-raised error, so the first file's
rows are not persisted and no report records anything. -/
theorem ingest_one_failure_not_isolated :
    (process_file svcOneBad (autoChunkDefault fileGood.contents) fileGood.source
        fileGood.product "docs@v1").toOption.isSome = true
    ∧ embedTexts svcOneBad (autoChunkDefault fileBad.contents) = .error "boom"
    ∧ ingest_folder svcOneBad [fileGood, fileBad] "docs@v1" [] = ([], some "boom") :=
  ⟨rfl, rfl, rfl⟩

/-- Witness for C2 (amended): applying the theorem to the two concrete files
and a store holding `rowA`. -/
theorem ingest_folder_failure_aborts_all_witness :
    ∃ e, ingest_folder svcOneBad [fileGood, fileBad] "docs@v1" [rowA] = ([rowA], some e) :=
  ingest_folder_failure_aborts_all svcOneBad [fileGood, fileBad] "docs@v1" [rowA]
    ⟨fileBad, List.mem_cons.mpr (Or.inr (List.mem_cons_self fileBad [])), "boom", rfl⟩

end MCPRAG
